import Mathlib

/-!
Verification development for the SQLite data-conversion pipeline
(`gnn_reco/data/sqlite_dataconverter.py`).

The embedding models:
* SQLite stores as association lists of named tables, where each table keeps
  its column list (with the column constraint produced by `_create_table`,
  or an inferred constraint when the table was created implicitly by a
  pandas `to_sql` append) and its row count;
* `pandas.DataFrame.to_sql(..., if_exists='append')` (`toSqlAppend`): if the
  target table does not exist it is created from the frame's columns
  (an error for a frame without columns); if it exists, the insert lists the
  frame's columns, so a frame column missing from the table raises an
  operational error, while table columns missing from the frame are silently
  null-filled;
* the merge coordinator `_merge_databases` / `_extract_column_names` /
  `_create_empty_tables` / `_merge_temporary_databases`, including the order
  of its side effects (table creation, per-shard appends, shard deletion)
  as an explicit event trace;
* the per-worker extraction loop `_parallel_extraction` with its buffers,
  flush logic (`save_to_sql`) and the `is_empty` feature test;
* the identifier allocator of `_process_files`, i.e.
  `np.array_split(np.arange(0, 99999999, 1), workers)`.
-/

set_option autoImplicit false

namespace SQLiteDataConverter

/-- Column constraint attached by `_create_table`, or `inferred` for columns
of tables created implicitly by a pandas append. -/
inductive ColSpec where
  | intPrimaryKeyNotNull
  | notNull
  | float
  | inferred
deriving DecidableEq, Repr

/-- One SQLite table: named columns with their constraints, and a row count. -/
structure Table where
  cols : List (String × ColSpec)
  nrows : Nat
deriving DecidableEq, Repr

/-- The column names of a table, in order. -/
def Table.colNames (t : Table) : List String := t.cols.map (fun p => p.1)

/-- Constraint recorded for a named column of a table (first occurrence). -/
def lookupSpec : List (String × ColSpec) → String → Option ColSpec
  | [], _ => none
  | p :: rest, c => if p.1 = c then some p.2 else lookupSpec rest c

/-- Constraint of the named column of a table. -/
def Table.specOf (t : Table) (c : String) : Option ColSpec := lookupSpec t.cols c

/-- A pandas data frame, abstracted to its column names and row count. -/
structure DataFrame where
  cols : List String
  nrows : Nat
deriving DecidableEq, Repr

/-- A SQLite database file: its tables (in creation order) and the list of
tables that carry an `event_no` index. -/
structure Store where
  tables : List (String × Table)
  indexes : List String
deriving DecidableEq, Repr

def Store.empty : Store := ⟨[], []⟩

/-- First table with the given name (SQLite table names are unique, and all
constructors below preserve that). -/
def lookupTable : List (String × Table) → String → Option Table
  | [], _ => none
  | p :: rest, name => if p.1 = name then some p.2 else lookupTable rest name

def Store.lookup (s : Store) (name : String) : Option Table :=
  lookupTable s.tables name

/-- Add `k` rows to the named table (the effect of a successful SQL insert). -/
def Store.appendRows (s : Store) (name : String) (k : Nat) : Store :=
  { s with tables :=
      s.tables.map (fun p =>
        if p.1 = name then (p.1, ⟨p.2.cols, p.2.nrows + k⟩) else p) }

/-- Model of `pandas.DataFrame.to_sql(name, engine, index=False)` with
`if_exists` set to append.
If the table is missing it is created from the frame's columns (zero-column
frames cannot create a table); if it exists, the generated INSERT lists the
frame's columns, so any frame column absent from the table raises, while
table columns absent from the frame are null-filled silently. -/
def toSqlAppend (store : Store) (name : String) (df : DataFrame) :
    Except String Store :=
  match store.lookup name with
  | none =>
      if df.cols = [] then
        .error ("cannot create table without columns: " ++ name)
      else
        .ok { store with
              tables := store.tables ++
                [(name, ⟨df.cols.map (fun c => (c, ColSpec.inferred)), df.nrows⟩)] }
  | some t =>
      if df.cols.all (fun c => c ∈ t.colNames) then
        .ok (store.appendRows name df.nrows)
      else
        .error ("table " ++ name ++ " is missing a column of the frame")

/-- Model of `_submit_to_database`: a frame with zero rows is not written at all. -/
def submitToDatabase (store : Store) (key : String) (data : DataFrame) :
    Except String Store :=
  if data.nrows = 0 then .ok store else toSqlAppend store key data

/-- The column constraint `_create_table` emits for one column. -/
def columnSpec (isPulseMap : Bool) (column : String) : ColSpec :=
  if column = "event_no" then
    if isPulseMap = false then ColSpec.intPrimaryKeyNotNull else ColSpec.notNull
  else ColSpec.float

/-- Model of `_create_table` (plus `_attach_index` when `is_pulse_map`): builds the
typed column list and runs CREATE TABLE; SQLite rejects a duplicate table
name, and an empty column list leaves `query_columns` undefined (a Python
NameError). -/
def createTable (store : Store) (name : String) (columns : List String)
    (isPulseMap : Bool) : Except String Store :=
  if columns = [] then .error "query_columns is undefined"
  else
    match store.lookup name with
    | some _ => .error ("table " ++ name ++ " already exists")
    | none =>
        let s1 : Store :=
          { store with tables := store.tables ++
              [(name, ⟨columns.map (fun c => (c, columnSpec isPulseMap c)), 0⟩)] }
        if isPulseMap then .ok { s1 with indexes := s1.indexes ++ [name] }
        else .ok s1

/-- Model of `_create_empty_tables`: truth table, then the RetroReco table only when
the sampled retro column set has strictly more than one column, then the
pulse-map table (which also gets the `event_no` index). -/
def createEmptyTables (pulseMap : String) (truthColumns pulseMapColumns
    retroColumns : List String) : Except String Store :=
  match createTable Store.empty "truth" truthColumns false with
  | .error e => .error e
  | .ok s1 =>
      match
        (if retroColumns.length > 1 then
          createTable s1 "RetroReco" retroColumns false
        else .ok s1) with
      | .error e => .error e
      | .ok s2 => createTable s2 pulseMap pulseMapColumns true

/-- The retro-column loop of `_extract_column_names`: scan the shards in
order; the first shard whose `RetroReco` table answers the sample query with
a non-empty column list wins; a shard without the table resets the result to
the empty list and the scan continues. -/
def extractRetroColumns : List Store → List String
  | [] => []
  | s :: rest =>
      match s.lookup "RetroReco" with
      | some t => if t.colNames ≠ [] then t.colNames else extractRetroColumns rest
      | none => extractRetroColumns rest

/-- Model of `_extract_column_names`: sample the FIRST shard for the truth and
pulse-map column sets (a missing table raises), and scan all shards for the
retro column set. -/
def extractColumnNames (shards : List Store) (pulseMap : String) :
    Except String (List String × List String × List String) :=
  match shards with
  | [] => .error "no shard to sample"
  | s0 :: _ =>
      match s0.lookup "truth" with
      | none => .error "no truth table in sampled shard"
      | some t =>
          match s0.lookup pulseMap with
          | none => .error "no pulse-map table in sampled shard"
          | some p => .ok (t.colNames, p.colNames, extractRetroColumns shards)

/-- Reading a whole table of a shard with `pd.read_sql` (raises when the
table does not exist). -/
def readTable (shard : Store) (name : String) : Except String DataFrame :=
  match shard.lookup name with
  | none => .error ("no such table: " ++ name)
  | some t => .ok ⟨t.colNames, t.nrows⟩

/-- Model of `_extract_everything`: read the truth and pulse-map tables (raising when
absent) and the RetroReco table, which degrades to an empty result when the
shard has none. -/
def extractEverything (shard : Store) (pulseMap : String) :
    Except String (DataFrame × DataFrame × DataFrame) :=
  match readTable shard "truth" with
  | .error e => .error e
  | .ok truth =>
      match readTable shard pulseMap with
      | .error e => .error e
      | .ok features =>
          let retro : DataFrame :=
            match shard.lookup "RetroReco" with
            | some t => ⟨t.colNames, t.nrows⟩
            | none => ⟨[], 0⟩
          .ok (truth, features, retro)

/-- One iteration of `_merge_temporary_databases`: read everything from one
shard and submit the three frames to the final store. -/
def mergeOneShard (store shard : Store) (pulseMap : String) :
    Except String Store :=
  match extractEverything shard pulseMap with
  | .error e => .error e
  | .ok (truth, features, retro) =>
      match submitToDatabase store "truth" truth with
      | .error e => .error e
      | .ok s1 =>
          match submitToDatabase s1 pulseMap features with
          | .error e => .error e
          | .ok s2 => submitToDatabase s2 "RetroReco" retro

/-- Event in the merge coordinator's side-effect trace. -/
inductive MergeEvent where
  | createdTables
  | appendedShard (i : Nat)
  | deletedShards
deriving DecidableEq, Repr

/-- The per-shard loop of `_merge_temporary_databases`, recording one trace
event per fully appended shard; an exception aborts the loop. -/
def mergeLoopTrace (store : Store) (shards : List Store) (pulseMap : String)
    (i : Nat) : Except String Store × List MergeEvent :=
  match shards with
  | [] => (.ok store, [])
  | s :: rest =>
      match mergeOneShard store s pulseMap with
      | .error e => (.error e, [])
      | .ok s1 =>
          let r := mergeLoopTrace s1 rest pulseMap (i + 1)
          (r.1, MergeEvent.appendedShard i :: r.2)

/-- Model of `_merge_databases`: with no shard files nothing happens; otherwise sample
the schema, create the final tables, append every shard, and only then remove
the whole shard directory (`os.system('rm -r ...')` runs once, after the
loop, and a raised exception never reaches it). The returned trace lists the
side effects in execution order. -/
def mergeDatabases (shards : List Store) (pulseMap : String) :
    Except String (Option Store) × List MergeEvent :=
  match shards with
  | [] => (.ok none, [])
  | s0 :: rest =>
      match extractColumnNames (s0 :: rest) pulseMap with
      | .error e => (.error e, [])
      | .ok (truthCols, pulseCols, retroCols) =>
          match createEmptyTables pulseMap truthCols pulseCols retroCols with
          | .error e => (.error e, [])
          | .ok sInit =>
              let r := mergeLoopTrace sInit (s0 :: rest) pulseMap 0
              match r.1 with
              | .error e => (.error e, MergeEvent.createdTables :: r.2)
              | .ok sFinal =>
                  (.ok (some sFinal),
                   MergeEvent.createdTables :: r.2 ++ [MergeEvent.deletedShards])

/-- Model of `save_to_sql`: write the three buffers into a fresh shard file
`worker-<id>-<output_count>.db` (the sequence number makes every call target
a new, empty database). The truth and pulse-map frames are written
unconditionally; the retro frame only when it has rows. -/
def saveToSql (featureBig truthBig retroBig : DataFrame) (pulseMap : String) :
    Except String Store :=
  match toSqlAppend Store.empty "truth" truthBig with
  | .error e => .error e
  | .ok s1 =>
      match
        (if retroBig.nrows > 0 then toSqlAppend s1 "RetroReco" retroBig
        else .ok s1) with
      | .error e => .error e
      | .ok s2 => toSqlAppend s2 pulseMap featureBig

/-! ## Worker loop (`_parallel_extraction`, `is_empty`, `save_to_sql`) -/

/-- The feature extraction of one frame, abstracted: the value of the primary
positional field `dom_x` (Python `None` when unset) and the number of pulse
rows the per-channel lists hold. -/
structure Features where
  dom_x : Option (List Int)
  nrows : Nat
deriving DecidableEq, Repr

/-- Model of `is_empty`: the test `dom_x != None` selects the non-empty branch. -/
def is_empty (features : Features) : Bool :=
  if features.dom_x ≠ none then false else true

/-- What `self._extractors(frame)` returns for one physics frame: the truth
mapping always yields one row; `retroLen` is `len(retros)`, the number of
keys of the retro mapping. -/
structure ExtractOut where
  features : Features
  retroLen : Nat
deriving DecidableEq, Repr

/-- Result of one `pop_physics` attempt: an exception leaves `frame = False`
(`err`), otherwise the frame is extracted. -/
inductive FrameResult where
  | err
  | phys (ex : ExtractOut)
deriving DecidableEq, Repr

/-- The three buffers of one shard file, by row count, in the order
(features, truth, retro) of `save_to_sql`. -/
structure ShardBuf where
  featureRows : Nat
  truthRows : Nat
  retroRows : Nat
deriving DecidableEq, Repr

/-- The local state of `_parallel_extraction`, plus the list of shards the
worker has written with `save_to_sql` so far. -/
structure WorkerState where
  event_counter : Nat
  feature_big : Nat
  truth_big : Nat
  retro_big : Nat
  file_counter : Nat
  output_count : Nat
  shards : List ShardBuf
deriving DecidableEq, Repr

def initialWorkerState : WorkerState :=
  ⟨0, 0, 0, 0, 0, 0, []⟩

/-- The body of the `while i3_file.more()` loop for one frame: an erroring
read leaves the state untouched; a physics frame appends one truth row,
one retro row when the retro mapping is non-empty, and the feature rows
unless `is_empty` holds; the event counter always advances; finally the
buffers are flushed as one shard when the truth buffer reached
`max_dictionary_size`. -/
def processFrame (maxDictSize : Nat) (st : WorkerState) (fr : FrameResult) :
    WorkerState :=
  match fr with
  | .err => st
  | .phys ex =>
      let truthB := st.truth_big + 1
      let retroB := if ex.retroLen > 0 then st.retro_big + 1 else st.retro_big
      let featureB :=
        if is_empty ex.features then st.feature_big
        else st.feature_big + ex.features.nrows
      if truthB ≥ maxDictSize then
        { st with
          event_counter := st.event_counter + 1
          feature_big := 0
          truth_big := 0
          retro_big := 0
          output_count := st.output_count + 1
          shards := st.shards ++ [⟨featureB, truthB, retroB⟩] }
      else
        { st with
          event_counter := st.event_counter + 1
          feature_big := featureB
          truth_big := truthB
          retro_big := retroB }

/-- One iteration of the `for u in range(len(input_files))` loop. -/
def processFile (maxDictSize : Nat) (st : WorkerState)
    (file : List FrameResult) : WorkerState :=
  let st1 := file.foldl (processFrame maxDictSize) st
  { st1 with file_counter := st1.file_counter + 1 }

/-- The file loop of `_parallel_extraction`, before the final flush. -/
def workerLoop (maxDictSize : Nat) (files : List (List FrameResult)) :
    WorkerState :=
  files.foldl (processFile maxDictSize) initialWorkerState

/-- The whole of `_parallel_extraction`: the file loop, then the final
unconditional flush guarded by `len(truth_big) > 0`. -/
def workerRun (maxDictSize : Nat) (files : List (List FrameResult)) :
    WorkerState :=
  let st := workerLoop maxDictSize files
  if st.truth_big > 0 then
    { st with
      feature_big := 0
      truth_big := 0
      retro_big := 0
      output_count := st.output_count + 1
      shards := st.shards ++ [⟨st.feature_big, st.truth_big, st.retro_big⟩] }
  else st

/-- Number of frames skipped by the `except: frame = False` handler over a
run's input — retained nowhere by the worker itself. -/
def skippedCount (files : List (List FrameResult)) : Nat :=
  (files.map (fun file => (file.filter (fun fr => fr = FrameResult.err)).length)).sum

/-- Number of successfully read physics frames over a run's input. -/
def physCount (files : List (List FrameResult)) : Nat :=
  (files.map (fun file => (file.filter (fun fr => fr ≠ FrameResult.err)).length)).sum

/-- Truth rows held by a worker state: buffered plus already flushed. -/
def totalTruthRows (st : WorkerState) : Nat :=
  st.truth_big + (st.shards.map (fun s => s.truthRows)).sum

/-- Feature rows held by a worker state: buffered plus already flushed. -/
def totalFeatureRows (st : WorkerState) : Nat :=
  st.feature_big + (st.shards.map (fun s => s.featureRows)).sum

/-! ## Identifier allocator (`_process_files`) -/

/-- The arange of the allocator has `99999999` entries, `0 .. 99999998`. -/
def idDomainSize : Nat := 99999999

/-- The effective worker count `min(self._workers, len(i3_files))`. -/
def effectiveWorkers (workers fileCount : Nat) : Nat := min workers fileCount

/-- Length of part `i` of `np.array_split` of an `n`-element array into `k`
parts: the first `n % k` parts get `n / k + 1` elements, the rest `n / k`. -/
def splitLen (n k i : Nat) : Nat :=
  n / k + if i < n % k then 1 else 0

/-- Start offset of part `i` of `np.array_split` of an `n`-element array
into `k` parts. -/
def splitStart (n k i : Nat) : Nat :=
  i * (n / k) + min i (n % k)

/-- The identifier block `event_nos[i]` handed to worker `i`: a contiguous
slice of `np.arange(0, 99999999, 1)`. -/
def workerEventNos (n k i : Nat) : Finset Nat :=
  Finset.Ico (splitStart n k i) (splitStart n k i + splitLen n k i)

/-! ## Helper evaluators and concrete example shards -/

/-- Whether a merge run finished without raising. -/
def mergeSucceeds (shards : List Store) (pm : String) : Bool :=
  match (mergeDatabases shards pm).1 with
  | .ok _ => true
  | .error _ => false

/-- Whether the final store produced by a merge contains the named table. -/
def finalHasTable (r : Except String (Option Store)) (name : String) : Bool :=
  match r with
  | .ok (some s) => (s.lookup name).isSome
  | _ => false

/-- Row count of the named table in the final store of a merge. -/
def finalTableRows (r : Except String (Option Store)) (name : String) : Nat :=
  match r with
  | .ok (some s) =>
      match s.lookup name with
      | some t => t.nrows
      | none => 0
  | _ => 0

/-- Pulse-map name used by the concrete examples. -/
def pmName : String := "SRTInIcePulses"

/-- A shard as `save_to_sql` writes it: truth columns `event_no, energy`,
pulse-map columns `event_no, dom_x`, no RetroReco table. -/
def exShardA : Store :=
  ⟨[("truth", ⟨[("event_no", ColSpec.inferred), ("energy", ColSpec.inferred)], 1⟩),
    (pmName, ⟨[("event_no", ColSpec.inferred), ("dom_x", ColSpec.inferred)], 3⟩)],
   []⟩

/-- A shard whose truth column set is a strict subset of `exShardA`'s. -/
def exShardSubset : Store :=
  ⟨[("truth", ⟨[("event_no", ColSpec.inferred)], 1⟩),
    (pmName, ⟨[("event_no", ColSpec.inferred), ("dom_x", ColSpec.inferred)], 2⟩)],
   []⟩

/-- A shard whose truth column set strictly contains `exShardA`'s. -/
def exShardSuper : Store :=
  ⟨[("truth", ⟨[("event_no", ColSpec.inferred), ("energy", ColSpec.inferred),
      ("zenith", ColSpec.inferred)], 1⟩),
    (pmName, ⟨[("event_no", ColSpec.inferred), ("dom_x", ColSpec.inferred)], 2⟩)],
   []⟩

/-- The final store produced by merging the single shard `exShardA`. -/
def exFinalA : Store :=
  ⟨[("truth", ⟨[("event_no", ColSpec.intPrimaryKeyNotNull),
      ("energy", ColSpec.float)], 1⟩),
    (pmName, ⟨[("event_no", ColSpec.notNull), ("dom_x", ColSpec.float)], 3⟩)],
   [pmName]⟩

/-- A shard whose RetroReco table has exactly one column and one row. -/
def exShardRetro1 : Store :=
  ⟨[("truth", ⟨[("event_no", ColSpec.inferred)], 1⟩),
    (pmName, ⟨[("event_no", ColSpec.inferred)], 1⟩),
    ("RetroReco", ⟨[("osc_weight", ColSpec.inferred)], 1⟩)],
   []⟩

/-- The final store produced by merging the single shard `exShardRetro1`:
the RetroReco table appears with an inferred schema even though
`_create_empty_tables` skipped it. -/
def exFinalRetro1 : Store :=
  ⟨[("truth", ⟨[("event_no", ColSpec.intPrimaryKeyNotNull)], 1⟩),
    (pmName, ⟨[("event_no", ColSpec.notNull)], 1⟩),
    ("RetroReco", ⟨[("osc_weight", ColSpec.inferred)], 1⟩)],
   [pmName]⟩

/-! ## Identifier allocator lemmas and claim C2 -/

theorem splitStart_succ (n k i : Nat) :
    splitStart n k (i + 1) = splitStart n k i + splitLen n k i := by
  simp only [splitStart, splitLen, Nat.succ_mul, Nat.min_def]
  split_ifs <;> omega

theorem splitStart_mono (n k : Nat) {i j : Nat} (h : i ≤ j) :
    splitStart n k i ≤ splitStart n k j := by
  unfold splitStart
  exact Nat.add_le_add (Nat.mul_le_mul_right _ h) (min_le_min h (le_refl _))

theorem splitStart_zero (n k : Nat) : splitStart n k 0 = 0 := by
  simp [splitStart]

theorem splitStart_self (n k : Nat) (hk : 0 < k) : splitStart n k k = n := by
  have hlt : n % k < k := Nat.mod_lt n hk
  have hmin : min k (n % k) = n % k := Nat.min_eq_right (Nat.le_of_lt hlt)
  unfold splitStart
  rw [hmin, Nat.div_add_mod]

theorem biUnion_workerEventNos_upto (n k : Nat) (m : Nat) :
    (Finset.range m).biUnion (workerEventNos n k) =
      Finset.Ico 0 (splitStart n k m) := by
  induction m with
  | zero => simp [splitStart]
  | succ m ih =>
      rw [Finset.range_succ, Finset.biUnion_insert, ih, workerEventNos,
        ← splitStart_succ, Finset.union_comm]
      exact Finset.Ico_union_Ico_eq_Ico (Nat.zero_le _)
        (splitStart_mono n k (Nat.le_succ m))

theorem workerEventNos_disjoint_lt (n k : Nat) {i j : Nat} (hij : i < j) :
    Disjoint (workerEventNos n k i) (workerEventNos n k j) := by
  rw [Finset.disjoint_left]
  intro a hai haj
  rw [workerEventNos, Finset.mem_Ico] at hai haj
  have h1 : splitStart n k i + splitLen n k i ≤ splitStart n k j := by
    rw [← splitStart_succ]
    exact splitStart_mono n k hij
  omega

/-- Claim C2: the identifier allocator of `_process_files` splits
`np.arange(0, 99999999, 1)` over the effective worker count
`min(workers, len(i3_files))` into contiguous per-worker blocks that are
pairwise disjoint, jointly cover exactly the configured identifier domain
`0 .. 99999998`, and whose sizes differ by at most one. -/
theorem event_no_ranges_partition_domain (workers fileCount : Nat)
    (hw : 0 < workers) (hf : 0 < fileCount) :
    (∀ i j : Nat, i ≠ j →
        Disjoint
          (workerEventNos idDomainSize (effectiveWorkers workers fileCount) i)
          (workerEventNos idDomainSize (effectiveWorkers workers fileCount) j)) ∧
    (Finset.range (effectiveWorkers workers fileCount)).biUnion
        (workerEventNos idDomainSize (effectiveWorkers workers fileCount)) =
      Finset.range idDomainSize ∧
    (∀ i j : Nat,
        splitLen idDomainSize (effectiveWorkers workers fileCount) i ≤
          splitLen idDomainSize (effectiveWorkers workers fileCount) j + 1) := by
  have hk : 0 < effectiveWorkers workers fileCount := by
    unfold effectiveWorkers
    omega
  refine ⟨?_, ?_, ?_⟩
  · intro i j hij
    rcases Nat.lt_or_ge i j with h | h
    · exact workerEventNos_disjoint_lt _ _ h
    · have h2 : j < i := by omega
      exact (workerEventNos_disjoint_lt _ _ h2).symm
  · rw [biUnion_workerEventNos_upto, splitStart_self _ _ hk,
      Finset.range_eq_Ico]
  · intro i j
    unfold splitLen
    split_ifs <;> omega

/-- Witness for claim C2 at two workers over three files. -/
theorem event_no_ranges_partition_domain_witness :
    0 < 2 ∧ 0 < 3 ∧
    ((∀ i j : Nat, i ≠ j →
        Disjoint (workerEventNos idDomainSize (effectiveWorkers 2 3) i)
          (workerEventNos idDomainSize (effectiveWorkers 2 3) j)) ∧
    (Finset.range (effectiveWorkers 2 3)).biUnion
        (workerEventNos idDomainSize (effectiveWorkers 2 3)) =
      Finset.range idDomainSize ∧
    (∀ i j : Nat,
        splitLen idDomainSize (effectiveWorkers 2 3) i ≤
          splitLen idDomainSize (effectiveWorkers 2 3) j + 1)) :=
  ⟨by decide, by decide,
    event_no_ranges_partition_domain 2 3 (by decide) (by decide)⟩

/-! ## Worker loop lemmas and claims C4, C5, C8 -/

/-- Claim C4: on an event whose extraction is genuinely empty — `is_empty`
holds, i.e. `features['dom_x']` is unset — the loop body appends no feature
rows (neither to the buffer nor, through a flush, to a shard), still appends
exactly one truth row, and still advances the event counter, consuming one
identifier. -/
theorem empty_event_appends_no_feature_rows (maxDictSize : Nat)
    (st : WorkerState) (ex : ExtractOut) (h : is_empty ex.features = true) :
    totalFeatureRows (processFrame maxDictSize st (FrameResult.phys ex)) =
        totalFeatureRows st ∧
    totalTruthRows (processFrame maxDictSize st (FrameResult.phys ex)) =
        totalTruthRows st + 1 ∧
    (processFrame maxDictSize st (FrameResult.phys ex)).event_counter =
        st.event_counter + 1 := by
  unfold processFrame totalFeatureRows totalTruthRows
  simp only [h, if_true]
  split_ifs <;> simp <;> omega

/-- Witness for claim C4: an event with `dom_x = None` and a listed row
count of 5 contributes nothing to the feature buffer. -/
theorem empty_event_appends_no_feature_rows_witness :
    is_empty (Features.mk none 5) = true ∧
    (totalFeatureRows (processFrame 10 initialWorkerState
          (FrameResult.phys ⟨⟨none, 5⟩, 0⟩)) =
        totalFeatureRows initialWorkerState ∧
    totalTruthRows (processFrame 10 initialWorkerState
          (FrameResult.phys ⟨⟨none, 5⟩, 0⟩)) =
        totalTruthRows initialWorkerState + 1 ∧
    (processFrame 10 initialWorkerState
          (FrameResult.phys ⟨⟨none, 5⟩, 0⟩)).event_counter =
        initialWorkerState.event_counter + 1) :=
  ⟨by decide,
    empty_event_appends_no_feature_rows 10 initialWorkerState ⟨⟨none, 5⟩, 0⟩
      (by decide)⟩

/-- Invariant carried through the extraction loop: the truth buffer stays
strictly below the flush threshold, every shard flushed so far holds exactly
`maxD` truth rows, and no truth row is lost or duplicated. -/
def FlushInv (maxD : Nat) (st : WorkerState) : Prop :=
  st.truth_big < maxD ∧ ∀ s ∈ st.shards, s.truthRows = maxD

theorem processFrame_flush (maxD : Nat) (st : WorkerState) (ex : ExtractOut)
    (h : st.truth_big + 1 ≥ maxD) :
    processFrame maxD st (FrameResult.phys ex) =
      { st with
        event_counter := st.event_counter + 1
        feature_big := 0
        truth_big := 0
        retro_big := 0
        output_count := st.output_count + 1
        shards := st.shards ++
          [⟨(if is_empty ex.features then st.feature_big
              else st.feature_big + ex.features.nrows),
            st.truth_big + 1,
            (if ex.retroLen > 0 then st.retro_big + 1 else st.retro_big)⟩] } := by
  simp only [processFrame]
  rw [if_pos h]

theorem processFrame_noflush (maxD : Nat) (st : WorkerState) (ex : ExtractOut)
    (h : ¬(st.truth_big + 1 ≥ maxD)) :
    processFrame maxD st (FrameResult.phys ex) =
      { st with
        event_counter := st.event_counter + 1
        feature_big :=
          (if is_empty ex.features then st.feature_big
            else st.feature_big + ex.features.nrows)
        truth_big := st.truth_big + 1
        retro_big :=
          (if ex.retroLen > 0 then st.retro_big + 1 else st.retro_big) } := by
  simp only [processFrame]
  rw [if_neg h]

theorem processFrame_inv (maxD : Nat) (st : WorkerState) (fr : FrameResult)
    (h : FlushInv maxD st) :
    FlushInv maxD (processFrame maxD st fr) ∧
    totalTruthRows (processFrame maxD st fr) =
      totalTruthRows st + (if fr = FrameResult.err then 0 else 1) := by
  obtain ⟨hlt, hall⟩ := h
  cases fr with
  | err => exact ⟨⟨hlt, hall⟩, by simp [processFrame]⟩
  | phys ex =>
      rcases Nat.lt_or_ge (st.truth_big + 1) maxD with hlt2 | hge
      · rw [processFrame_noflush maxD st ex (by omega)]
        refine ⟨⟨by simpa using hlt2, by simpa using hall⟩, ?_⟩
        simp [totalTruthRows]
        omega
      · rw [processFrame_flush maxD st ex hge]
        refine ⟨⟨by simp only; omega, ?_⟩, ?_⟩
        · intro s hs
          simp only [List.mem_append, List.mem_singleton] at hs
          rcases hs with hs | hs
          · exact hall s hs
          · subst hs
            simp only
            omega
        · simp [totalTruthRows, List.sum_append]
          omega

theorem foldl_frames_inv (maxD : Nat) (file : List FrameResult) :
    ∀ st : WorkerState, FlushInv maxD st →
      FlushInv maxD (file.foldl (processFrame maxD) st) ∧
      totalTruthRows (file.foldl (processFrame maxD) st) =
        totalTruthRows st +
          (file.filter (fun fr => fr ≠ FrameResult.err)).length := by
  induction file with
  | nil =>
      intro st h
      exact ⟨h, by simp⟩
  | cons fr rest ih =>
      intro st h
      obtain ⟨h1, h2⟩ := processFrame_inv maxD st fr h
      obtain ⟨h3, h4⟩ := ih (processFrame maxD st fr) h1
      refine ⟨h3, ?_⟩
      rw [List.foldl_cons, h4, h2]
      by_cases hfr : fr = FrameResult.err
      · simp [List.filter_cons, hfr]
      · simp only [List.filter_cons, hfr, decide_not]
        simp [hfr]
        omega

theorem processFile_inv (maxD : Nat) (file : List FrameResult)
    (st : WorkerState) (h : FlushInv maxD st) :
    FlushInv maxD (processFile maxD st file) ∧
    totalTruthRows (processFile maxD st file) =
      totalTruthRows st +
        (file.filter (fun fr => fr ≠ FrameResult.err)).length := by
  obtain ⟨h1, h2⟩ := foldl_frames_inv maxD file st h
  exact ⟨h1, h2⟩

theorem foldl_files_inv (maxD : Nat) (files : List (List FrameResult)) :
    ∀ st : WorkerState, FlushInv maxD st →
      FlushInv maxD (files.foldl (processFile maxD) st) ∧
      totalTruthRows (files.foldl (processFile maxD) st) =
        totalTruthRows st +
          (files.map
            (fun file =>
              (file.filter (fun fr => fr ≠ FrameResult.err)).length)).sum := by
  induction files with
  | nil =>
      intro st h
      exact ⟨h, by simp⟩
  | cons file rest ih =>
      intro st h
      obtain ⟨h1, h2⟩ := processFile_inv maxD file st h
      obtain ⟨h3, h4⟩ := ih (processFile maxD st file) h1
      refine ⟨h3, ?_⟩
      rw [List.foldl_cons, h4, h2, List.map_cons, List.sum_cons]
      omega

theorem workerLoop_inv (maxD : Nat) (files : List (List FrameResult))
    (hmax : 0 < maxD) :
    FlushInv maxD (workerLoop maxD files) ∧
    totalTruthRows (workerLoop maxD files) = physCount files := by
  have h0 : FlushInv maxD initialWorkerState := by
    refine ⟨hmax, ?_⟩
    intro s hs
    simp [initialWorkerState] at hs
  obtain ⟨h1, h2⟩ := foldl_files_inv maxD files initialWorkerState h0
  refine ⟨h1, ?_⟩
  rw [workerLoop, h2]
  simp [totalTruthRows, initialWorkerState, physCount]

/-- Claim C5: with a positive configured maximum, every shard flushed inside
the loop holds exactly `max_dictionary_size` truth rows (the flush fires
exactly when the buffer reaches the maximum, and resets it), the truth
buffer never reaches the maximum between flushes, the unconditional final
flush emits one extra shard exactly when the truth buffer is non-empty at
end of input, the run ends with an empty truth buffer, and every processed
event's truth row ends up in exactly one shard. -/
theorem flush_exactly_at_max_and_final_flush (maxD : Nat)
    (files : List (List FrameResult)) (hmax : 0 < maxD) :
    (∀ s ∈ (workerLoop maxD files).shards, s.truthRows = maxD) ∧
    (workerLoop maxD files).truth_big < maxD ∧
    (workerRun maxD files).shards.length =
      (workerLoop maxD files).shards.length +
        (if 0 < (workerLoop maxD files).truth_big then 1 else 0) ∧
    (workerRun maxD files).truth_big = 0 ∧
    ((workerRun maxD files).shards.map (fun s => s.truthRows)).sum =
      physCount files := by
  obtain ⟨⟨hlt, hall⟩, htot⟩ := workerLoop_inv maxD files hmax
  simp only [totalTruthRows] at htot
  by_cases hc : 0 < (workerLoop maxD files).truth_big
  · have he : workerRun maxD files =
        { workerLoop maxD files with
          feature_big := 0
          truth_big := 0
          retro_big := 0
          output_count := (workerLoop maxD files).output_count + 1
          shards := (workerLoop maxD files).shards ++
            [⟨(workerLoop maxD files).feature_big,
              (workerLoop maxD files).truth_big,
              (workerLoop maxD files).retro_big⟩] } := by
      simp only [workerRun]
      rw [if_pos hc]
    rw [he]
    refine ⟨hall, hlt, ?_, ?_, ?_⟩
    · simp [hc]
    · simp
    · simp [List.sum_append]
      omega
  · have he : workerRun maxD files = workerLoop maxD files := by
      simp only [workerRun]
      rw [if_neg hc]
    rw [he]
    refine ⟨hall, hlt, ?_, ?_, ?_⟩
    · simp [hc]
    · omega
    · omega

/-- Witness for claim C5: two files with three good events and one bad
record, flushed with a maximum of 2: one full shard plus a final partial
one. -/
theorem flush_exactly_at_max_and_final_flush_witness :
    0 < 2 ∧
    ((∀ s ∈ (workerLoop 2 [[FrameResult.phys ⟨⟨none, 0⟩, 0⟩,
          FrameResult.err, FrameResult.phys ⟨⟨some [1], 4⟩, 1⟩],
          [FrameResult.phys ⟨⟨some [2], 2⟩, 0⟩]]).shards, s.truthRows = 2) ∧
    (workerLoop 2 [[FrameResult.phys ⟨⟨none, 0⟩, 0⟩,
          FrameResult.err, FrameResult.phys ⟨⟨some [1], 4⟩, 1⟩],
          [FrameResult.phys ⟨⟨some [2], 2⟩, 0⟩]]).truth_big < 2 ∧
    (workerRun 2 [[FrameResult.phys ⟨⟨none, 0⟩, 0⟩,
          FrameResult.err, FrameResult.phys ⟨⟨some [1], 4⟩, 1⟩],
          [FrameResult.phys ⟨⟨some [2], 2⟩, 0⟩]]).shards.length =
      (workerLoop 2 [[FrameResult.phys ⟨⟨none, 0⟩, 0⟩,
          FrameResult.err, FrameResult.phys ⟨⟨some [1], 4⟩, 1⟩],
          [FrameResult.phys ⟨⟨some [2], 2⟩, 0⟩]]).shards.length +
        (if 0 < (workerLoop 2 [[FrameResult.phys ⟨⟨none, 0⟩, 0⟩,
          FrameResult.err, FrameResult.phys ⟨⟨some [1], 4⟩, 1⟩],
          [FrameResult.phys ⟨⟨some [2], 2⟩, 0⟩]]).truth_big then 1 else 0) ∧
    (workerRun 2 [[FrameResult.phys ⟨⟨none, 0⟩, 0⟩,
          FrameResult.err, FrameResult.phys ⟨⟨some [1], 4⟩, 1⟩],
          [FrameResult.phys ⟨⟨some [2], 2⟩, 0⟩]]).truth_big = 0 ∧
    ((workerRun 2 [[FrameResult.phys ⟨⟨none, 0⟩, 0⟩,
          FrameResult.err, FrameResult.phys ⟨⟨some [1], 4⟩, 1⟩],
          [FrameResult.phys ⟨⟨some [2], 2⟩, 0⟩]]).shards.map
        (fun s => s.truthRows)).sum =
      physCount [[FrameResult.phys ⟨⟨none, 0⟩, 0⟩,
          FrameResult.err, FrameResult.phys ⟨⟨some [1], 4⟩, 1⟩],
          [FrameResult.phys ⟨⟨some [2], 2⟩, 0⟩]]) :=
  ⟨by decide,
    flush_exactly_at_max_and_final_flush 2
      [[FrameResult.phys ⟨⟨none, 0⟩, 0⟩,
        FrameResult.err, FrameResult.phys ⟨⟨some [1], 4⟩, 1⟩],
        [FrameResult.phys ⟨⟨some [2], 2⟩, 0⟩]] (by decide)⟩

/-- Claim C8 (amended): a record that errors on read leaves the worker state
untouched and the loop continues with the remaining records — processing a
file is the same as processing the file with the erroring records removed.
No count of skipped records is retained (see the counterexample). -/
theorem skipped_record_skips_and_continues (maxD : Nat) (st : WorkerState) :
    processFrame maxD st FrameResult.err = st ∧
    ∀ file : List FrameResult,
      file.foldl (processFrame maxD) st =
        (file.filter (fun fr => fr ≠ FrameResult.err)).foldl
          (processFrame maxD) st := by
  refine ⟨rfl, ?_⟩
  intro file
  induction file generalizing st with
  | nil => rfl
  | cons fr rest ih =>
      cases fr with
      | err => simpa using ih st
      | phys ex => simpa using ih (processFrame maxD st (FrameResult.phys ex))

/-- Counterexample for claim C8 as stated: two runs that differ only in how
many records errored on read drive the worker through identical states and
leave it in identical final states — every variable of
`_parallel_extraction` (counters, buffers, shard outputs) coincides — so the
number of skipped records is retained nowhere. -/
theorem skipped_record_count_not_retained :
    workerRun 10 [[FrameResult.err]] =
      workerRun 10 [[FrameResult.err, FrameResult.err]] ∧
    skippedCount [[FrameResult.err]] = 1 ∧
    skippedCount [[FrameResult.err, FrameResult.err]] = 2 := by
  refine ⟨by decide, by decide, by decide⟩

/-! ## Store and merge lemmas -/

theorem lookupTable_append (l1 l2 : List (String × Table)) (x : String) :
    lookupTable (l1 ++ l2) x =
      match lookupTable l1 x with
      | some t => some t
      | none => lookupTable l2 x := by
  induction l1 with
  | nil => simp [lookupTable]
  | cons p tl ih =>
      by_cases h : p.1 = x <;> simp [lookupTable, h, ih]

theorem lookupTable_appendRowsList (l : List (String × Table))
    (name n : String) (k : Nat) :
    lookupTable
      (l.map (fun p =>
        if p.1 = name then (p.1, ⟨p.2.cols, p.2.nrows + k⟩) else p)) n =
      (lookupTable l n).map
        (fun t => if n = name then ⟨t.cols, t.nrows + k⟩ else t) := by
  induction l with
  | nil => simp [lookupTable]
  | cons p tl ih =>
      by_cases h1 : p.1 = name <;> by_cases h2 : p.1 = n
      · have hn : n = name := by rw [← h2, h1]
        subst hn
        simp [lookupTable, h1]
      · have hn2 : ¬name = n := by rw [← h1]; exact h2
        simp [lookupTable, h1, h2, hn2, ih]
      · have hn : ¬n = name := by rw [← h2]; exact h1
        simp [lookupTable, h1, h2, hn]
      · simp [lookupTable, h1, h2, ih]

theorem lookup_appendRows (s : Store) (name n : String) (k : Nat) :
    (s.appendRows name k).lookup n =
      (s.lookup n).map
        (fun t => if n = name then ⟨t.cols, t.nrows + k⟩ else t) := by
  unfold Store.appendRows Store.lookup
  exact lookupTable_appendRowsList s.tables name n k

/-- What a successful `toSqlAppend` guarantees: indexes untouched, existing
tables keep their column list, absent tables other than the target stay
absent, and the target exists afterwards. -/
theorem toSqlAppend_preserve (s : Store) (name : String) (df : DataFrame)
    (s2 : Store) (h : toSqlAppend s name df = .ok s2) :
    s2.indexes = s.indexes ∧
    (∀ n t, s.lookup n = some t →
      ∃ t2, s2.lookup n = some t2 ∧ t2.cols = t.cols) ∧
    (∀ n, s.lookup n = none → n ≠ name → s2.lookup n = none) ∧
    (s2.lookup name).isSome := by
  unfold toSqlAppend at h
  split at h
  · rename_i hl
    split at h
    · exact absurd h (by simp)
    · rename_i hc
      injection h with h2
      subst h2
      refine ⟨rfl, ?_, ?_, ?_⟩
      · intro n t ht
        refine ⟨t, ?_, rfl⟩
        show lookupTable (s.tables ++ _) n = some t
        rw [lookupTable_append]
        rw [show lookupTable s.tables n = some t from ht]
      · intro n hn hne
        show lookupTable (s.tables ++ _) n = none
        rw [lookupTable_append]
        rw [show lookupTable s.tables n = none from hn]
        simp [lookupTable, Ne.symm hne]
      · show (lookupTable (s.tables ++ _) name).isSome
        rw [lookupTable_append]
        cases hx : lookupTable s.tables name with
        | some t => simp
        | none => simp [lookupTable]
  · rename_i t0 hl
    split at h
    · rename_i hc
      injection h with h2
      subst h2
      refine ⟨rfl, ?_, ?_, ?_⟩
      · intro n t ht
        rw [lookup_appendRows, ht]
        by_cases hn : n = name <;> simp [hn]
      · intro n hn _
        rw [lookup_appendRows, hn]
        rfl
      · rw [lookup_appendRows, hl]
        simp
    · exact absurd h (by simp)

/-- The same preservation facts for `_submit_to_database`. -/
theorem submit_preserve (s : Store) (key : String) (df : DataFrame)
    (s2 : Store) (h : submitToDatabase s key df = .ok s2) :
    s2.indexes = s.indexes ∧
    (∀ n t, s.lookup n = some t →
      ∃ t2, s2.lookup n = some t2 ∧ t2.cols = t.cols) ∧
    (∀ n, s.lookup n = none → n ≠ key → s2.lookup n = none) := by
  unfold submitToDatabase at h
  by_cases hz : df.nrows = 0
  · rw [if_pos hz] at h
    have h2 : s2 = s := by cases h; rfl
    subst h2
    exact ⟨rfl, fun n t ht => ⟨t, ht, rfl⟩, fun n hn _ => hn⟩
  · rw [if_neg hz] at h
    obtain ⟨h1, h2, h3, _⟩ := toSqlAppend_preserve s key df s2 h
    exact ⟨h1, h2, h3⟩

/-- The same preservation facts for one whole shard append. -/
theorem mergeOneShard_preserve (store shard : Store) (pm : String)
    (s2 : Store) (h : mergeOneShard store shard pm = .ok s2) :
    s2.indexes = store.indexes ∧
    (∀ n t, store.lookup n = some t →
      ∃ t2, s2.lookup n = some t2 ∧ t2.cols = t.cols) ∧
    (∀ n, store.lookup n = none → n ≠ "truth" → n ≠ pm → n ≠ "RetroReco" →
      s2.lookup n = none) := by
  unfold mergeOneShard at h
  split at h
  · exact absurd h (by simp)
  · rename_i truth features retro he
    split at h
    · exact absurd h (by simp)
    · rename_i sA h1
      split at h
      · exact absurd h (by simp)
      · rename_i sB h2
        obtain ⟨p1i, p1s, p1n⟩ := submit_preserve _ _ _ _ h1
        obtain ⟨p2i, p2s, p2n⟩ := submit_preserve _ _ _ _ h2
        obtain ⟨p3i, p3s, p3n⟩ := submit_preserve _ _ _ _ h
        refine ⟨by rw [p3i, p2i, p1i], ?_, ?_⟩
        · intro n t ht
          obtain ⟨tA, hA, hAc⟩ := p1s n t ht
          obtain ⟨tB, hB, hBc⟩ := p2s n tA hA
          obtain ⟨tC, hC, hCc⟩ := p3s n tB hB
          exact ⟨tC, hC, by rw [hCc, hBc, hAc]⟩
        · intro n hn hnt hnp hnr
          exact p3n n (p2n n (p1n n hn hnt) hnp) hnr

/-- The same preservation facts through the whole merge loop. -/
theorem mergeLoop_preserve (pm : String) : ∀ (shards : List Store)
    (store sf : Store) (i : Nat),
    (mergeLoopTrace store shards pm i).1 = .ok sf →
    sf.indexes = store.indexes ∧
    (∀ n t, store.lookup n = some t →
      ∃ t2, sf.lookup n = some t2 ∧ t2.cols = t.cols) ∧
    (∀ n, store.lookup n = none → n ≠ "truth" → n ≠ pm → n ≠ "RetroReco" →
      sf.lookup n = none) := by
  intro shards
  induction shards with
  | nil =>
      intro store sf i h
      simp only [mergeLoopTrace] at h
      cases h
      exact ⟨rfl, fun n t ht => ⟨t, ht, rfl⟩, fun n hn _ _ _ => hn⟩
  | cons s rest ih =>
      intro store sf i h
      simp only [mergeLoopTrace] at h
      split at h
      · rename_i e hm
        exact absurd h (by simp)
      · rename_i s1 hm
        dsimp only at h
        obtain ⟨q1, q2, q3⟩ := mergeOneShard_preserve store s pm s1 hm
        obtain ⟨r1, r2, r3⟩ := ih s1 sf (i + 1) h
        refine ⟨by rw [r1, q1], ?_, ?_⟩
        · intro n t ht
          obtain ⟨t1, h1, h1c⟩ := q2 n t ht
          obtain ⟨t2, h2, h2c⟩ := r2 n t1 h1
          exact ⟨t2, h2, by rw [h2c, h1c]⟩
        · intro n hn hnt hnp hnr
          exact r3 n (q3 n hn hnt hnp hnr) hnt hnp hnr

theorem createTable_ok (store : Store) (name : String) (columns : List String)
    (b : Bool) (s2 : Store) (h : createTable store name columns b = .ok s2) :
    columns ≠ [] ∧ store.lookup name = none ∧
    s2.tables = store.tables ++
      [(name, ⟨columns.map (fun c => (c, columnSpec b c)), 0⟩)] ∧
    s2.indexes = store.indexes ++ (if b then [name] else []) := by
  unfold createTable at h
  split at h
  · exact absurd h (by simp)
  · rename_i hc
    split at h
    · exact absurd h (by simp)
    · rename_i hl
      cases b with
      | true =>
          rw [if_pos rfl] at h
          injection h with h2
          subst h2
          exact ⟨hc, hl, rfl, rfl⟩
      | false =>
          rw [if_neg (by simp)] at h
          injection h with h2
          subst h2
          exact ⟨hc, hl, rfl, by simp⟩

/-- The final-store schema produced by `_create_empty_tables`: a typed truth
table, a typed pulse-map table carrying the only `event_no` index, a typed
RetroReco table exactly when the sampled retro column set has more than one
column, and nothing else. -/
theorem createEmptyTables_spec (pm : String) (tc pc rc : List String)
    (s : Store) (h : createEmptyTables pm tc pc rc = .ok s) :
    s.lookup "truth" = some ⟨tc.map (fun c => (c, columnSpec false c)), 0⟩ ∧
    s.lookup pm = some ⟨pc.map (fun c => (c, columnSpec true c)), 0⟩ ∧
    s.indexes = [pm] ∧
    (rc.length ≤ 1 → pm ≠ "RetroReco" → s.lookup "RetroReco" = none) ∧
    (rc.length > 1 → s.lookup "RetroReco" =
      some ⟨rc.map (fun c => (c, columnSpec false c)), 0⟩) ∧
    (∀ n, n ≠ "truth" → n ≠ pm → n ≠ "RetroReco" → s.lookup n = none) := by
  unfold createEmptyTables at h
  split at h
  · exact absurd h (by simp)
  · rename_i s1 h1
    split at h
    · exact absurd h (by simp)
    · rename_i s2 h2
      obtain ⟨c1, c2, c3, c4⟩ := createTable_ok Store.empty "truth" tc false s1 h1
      obtain ⟨d1, d2, d3, d4⟩ := createTable_ok s2 pm pc true s h
      have hs1t : s1.tables = [("truth", ⟨tc.map (fun c => (c, columnSpec false c)), 0⟩)] := by
        rw [c3]; rfl
      have hs1i : s1.indexes = [] := by
        rw [c4]; rfl
      by_cases hrc : rc.length > 1
      · rw [if_pos hrc] at h2
        obtain ⟨e1, e2, e3, e4⟩ := createTable_ok s1 "RetroReco" rc false s2 h2
        have hs2t : s2.tables =
            [("truth", ⟨tc.map (fun c => (c, columnSpec false c)), 0⟩),
             ("RetroReco", ⟨rc.map (fun c => (c, columnSpec false c)), 0⟩)] := by
          rw [e3, hs1t]; rfl
        have hs2i : s2.indexes = [] := by
          rw [e4, hs1i]; rfl
        refine ⟨?_, ?_, ?_, ?_, ?_, ?_⟩
        · show lookupTable s.tables "truth" = _
          rw [d3, hs2t, lookupTable_append]
          simp [lookupTable]
        · show lookupTable s.tables pm = _
          have hd2 : lookupTable s2.tables pm = none := d2
          rw [d3, lookupTable_append, hd2]
          simp [lookupTable]
        · rw [d4, hs2i]
          simp
        · intro hle
          omega
        · intro _
          show lookupTable s.tables "RetroReco" = _
          rw [d3, hs2t, lookupTable_append]
          simp [lookupTable]
        · intro n hn1 hn2 hn3
          show lookupTable s.tables n = none
          rw [d3, hs2t, lookupTable_append]
          simp [lookupTable, Ne.symm hn1, Ne.symm hn2, Ne.symm hn3]
      · rw [if_neg hrc] at h2
        injection h2 with h2e
        subst h2e
        refine ⟨?_, ?_, ?_, ?_, ?_, ?_⟩
        · show lookupTable s.tables "truth" = _
          rw [d3, hs1t, lookupTable_append]
          simp [lookupTable]
        · show lookupTable s.tables pm = _
          have hd2 : lookupTable s1.tables pm = none := d2
          rw [d3, lookupTable_append, hd2]
          simp [lookupTable]
        · rw [d4, hs1i]
          simp
        · intro _ hpm
          show lookupTable s.tables "RetroReco" = none
          rw [d3, hs1t, lookupTable_append]
          simp [lookupTable, hpm, Ne.symm hpm]
        · intro hgt
          omega
        · intro n hn1 hn2 hn3
          show lookupTable s.tables n = none
          rw [d3, hs1t, lookupTable_append]
          simp [lookupTable, Ne.symm hn1, Ne.symm hn2]

theorem extractColumnNames_ok (s0 : Store) (rest : List Store) (pm : String)
    (t p : Table) (ht : s0.lookup "truth" = some t) (hp : s0.lookup pm = some p) :
    extractColumnNames (s0 :: rest) pm =
      .ok (t.colNames, p.colNames, extractRetroColumns (s0 :: rest)) := by
  simp only [extractColumnNames, ht, hp]

/-- A successful merge over a non-empty shard list decomposes into a
successful schema sampling, table creation, and append loop. -/
theorem mergeDatabases_ok_elim (s0 : Store) (rest : List Store) (pm : String)
    (sf : Store) (t0 p0 : Table)
    (ht : s0.lookup "truth" = some t0) (hp : s0.lookup pm = some p0)
    (hok : (mergeDatabases (s0 :: rest) pm).1 = .ok (some sf)) :
    ∃ sInit, createEmptyTables pm t0.colNames p0.colNames
        (extractRetroColumns (s0 :: rest)) = .ok sInit ∧
      (mergeLoopTrace sInit (s0 :: rest) pm 0).1 = .ok sf := by
  unfold mergeDatabases at hok
  dsimp only at hok
  rw [extractColumnNames_ok s0 rest pm t0 p0 ht hp] at hok
  dsimp only at hok
  split at hok
  · exact absurd hok (by simp)
  · rename_i sInit hce
    split at hok
    · exact absurd hok (by simp)
    · rename_i sFinal hloop
      dsimp only at hok
      injection hok with h2
      injection h2 with h3
      subst h3
      exact ⟨sInit, hce, hloop⟩

theorem extractRetroColumns_of_no_aux (shards : List Store)
    (h : ∀ sh ∈ shards, sh.lookup "RetroReco" = none) :
    extractRetroColumns shards = [] := by
  induction shards with
  | nil => rfl
  | cons s rest ih =>
      unfold extractRetroColumns
      rw [h s (by simp)]
      exact ih (fun sh hs => h sh (by simp [hs]))

theorem extractEverything_retro_none (shard : Store) (pm : String)
    (truth features retro : DataFrame)
    (hsh : shard.lookup "RetroReco" = none)
    (he : extractEverything shard pm = .ok (truth, features, retro)) :
    retro = ⟨[], 0⟩ := by
  unfold extractEverything at he
  split at he
  · exact absurd he (by simp)
  · split at he
    · exact absurd he (by simp)
    · rw [hsh] at he
      dsimp only at he
      injection he with h2
      injection h2 with ha hb
      injection hb with hc hd
      exact hd.symm

theorem readTable_ok (shard : Store) (name : String) (df : DataFrame)
    (h : readTable shard name = .ok df) :
    ∃ t, shard.lookup name = some t ∧ df = ⟨t.colNames, t.nrows⟩ := by
  unfold readTable at h
  split at h
  · exact absurd h (by simp)
  · rename_i t hl
    injection h with h2
    exact ⟨t, hl, h2.symm⟩

/-- What `_extract_everything` reads from a shard, in terms of its tables. -/
theorem extractEverything_elim (shard : Store) (pm : String)
    (truth features retro : DataFrame)
    (he : extractEverything shard pm = .ok (truth, features, retro)) :
    (∃ ts, shard.lookup "truth" = some ts ∧ truth = ⟨ts.colNames, ts.nrows⟩) ∧
    (∃ ps, shard.lookup pm = some ps ∧ features = ⟨ps.colNames, ps.nrows⟩) ∧
    ((shard.lookup "RetroReco" = none ∧ retro = ⟨[], 0⟩) ∨
      (∃ rs, shard.lookup "RetroReco" = some rs ∧
        retro = ⟨rs.colNames, rs.nrows⟩)) := by
  unfold extractEverything at he
  split at he
  · exact absurd he (by simp)
  · rename_i truthDf hrt
    split at he
    · exact absurd he (by simp)
    · rename_i featDf hrp
      cases hrr : shard.lookup "RetroReco" with
      | none =>
          rw [hrr] at he
          dsimp only at he
          injection he with h2
          injection h2 with ha hb
          injection hb with hc hd
          obtain ⟨ts, hts, htdf⟩ := readTable_ok shard "truth" truthDf hrt
          obtain ⟨ps, hps, hpdf⟩ := readTable_ok shard pm featDf hrp
          exact ⟨⟨ts, hts, by rw [← ha, htdf]⟩, ⟨ps, hps, by rw [← hc, hpdf]⟩,
            Or.inl ⟨rfl, hd.symm⟩⟩
      | some rs =>
          rw [hrr] at he
          dsimp only at he
          injection he with h2
          injection h2 with ha hb
          injection hb with hc hd
          obtain ⟨ts, hts, htdf⟩ := readTable_ok shard "truth" truthDf hrt
          obtain ⟨ps, hps, hpdf⟩ := readTable_ok shard pm featDf hrp
          exact ⟨⟨ts, hts, by rw [← ha, htdf]⟩, ⟨ps, hps, by rw [← hc, hpdf]⟩,
            Or.inr ⟨rs, rfl, hd.symm⟩⟩

theorem mergeOneShard_no_retro (store shard : Store) (pm : String) (s2 : Store)
    (hpm : pm ≠ "RetroReco")
    (hsh : shard.lookup "RetroReco" = none)
    (hst : store.lookup "RetroReco" = none)
    (h : mergeOneShard store shard pm = .ok s2) :
    s2.lookup "RetroReco" = none := by
  unfold mergeOneShard at h
  split at h
  · exact absurd h (by simp)
  · rename_i truth features retro he
    split at h
    · exact absurd h (by simp)
    · rename_i sA h1
      split at h
      · exact absurd h (by simp)
      · rename_i sB h2
        have hr : retro = ⟨[], 0⟩ :=
          extractEverything_retro_none shard pm truth features retro hsh he
        subst hr
        have hs2 : s2 = sB := by
          unfold submitToDatabase at h
          rw [if_pos rfl] at h
          injection h with h3
          rw [h3]
        subst hs2
        obtain ⟨_, _, p1n⟩ := submit_preserve _ _ _ _ h1
        obtain ⟨_, _, p2n⟩ := submit_preserve _ _ _ _ h2
        exact p2n "RetroReco"
          (p1n "RetroReco" hst (by decide)) (fun hh => hpm hh.symm)

theorem mergeLoop_no_retro (pm : String) (hpm : pm ≠ "RetroReco") :
    ∀ (shards : List Store) (store sf : Store) (i : Nat),
      (∀ sh ∈ shards, sh.lookup "RetroReco" = none) →
      store.lookup "RetroReco" = none →
      (mergeLoopTrace store shards pm i).1 = .ok sf →
      sf.lookup "RetroReco" = none := by
  intro shards
  induction shards with
  | nil =>
      intro store sf i _ hst h
      simp only [mergeLoopTrace] at h
      cases h
      exact hst
  | cons s rest ih =>
      intro store sf i hall hst h
      simp only [mergeLoopTrace] at h
      split at h
      · exact absurd h (by simp)
      · rename_i s1 hm
        dsimp only at h
        have h1 : s1.lookup "RetroReco" = none :=
          mergeOneShard_no_retro store s pm s1 hpm (hall s (by simp)) hst hm
        exact ih s1 sf (i + 1) (fun sh hs => hall sh (by simp [hs])) h1 h

/-- Claim C3: when no shard database contains a RetroReco table, a
successful merge produces a final store whose only tables are the truth
table and the pulse-map table — in particular no auxiliary table. -/
theorem no_aux_data_no_aux_table (s0 : Store) (rest : List Store)
    (pm : String) (sf : Store) (t0 p0 : Table)
    (hpm : pm ≠ "RetroReco")
    (ht : s0.lookup "truth" = some t0) (hp : s0.lookup pm = some p0)
    (hnoaux : ∀ sh ∈ s0 :: rest, sh.lookup "RetroReco" = none)
    (hok : (mergeDatabases (s0 :: rest) pm).1 = .ok (some sf)) :
    (sf.lookup "truth").isSome ∧ (sf.lookup pm).isSome ∧
    sf.lookup "RetroReco" = none ∧
    (∀ n, (sf.lookup n).isSome → n = "truth" ∨ n = pm) := by
  obtain ⟨sInit, hce, hloop⟩ :=
    mergeDatabases_ok_elim s0 rest pm sf t0 p0 ht hp hok
  have hrc : extractRetroColumns (s0 :: rest) = [] :=
    extractRetroColumns_of_no_aux _ hnoaux
  rw [hrc] at hce
  obtain ⟨e1, e2, _, e4, _, e6⟩ := createEmptyTables_spec pm _ _ _ _ hce
  obtain ⟨_, q2, q3⟩ := mergeLoop_preserve pm (s0 :: rest) sInit sf 0 hloop
  have hretro : sf.lookup "RetroReco" = none :=
    mergeLoop_no_retro pm hpm (s0 :: rest) sInit sf 0 hnoaux
      (e4 (by simp) hpm) hloop
  refine ⟨?_, ?_, hretro, ?_⟩
  · obtain ⟨t2, h2, _⟩ := q2 "truth" _ e1
    simp [h2]
  · obtain ⟨p2, h2, _⟩ := q2 pm _ e2
    simp [h2]
  · intro n hn
    by_cases h1 : n = "truth"
    · exact Or.inl h1
    · by_cases h2 : n = pm
      · exact Or.inr h2
      · by_cases h3 : n = "RetroReco"
        · rw [h3] at hn
          rw [hretro] at hn
          simp at hn
        · rw [q3 n (e6 n h1 h2 h3) h1 h2 h3] at hn
          simp at hn

/-- Witness for claim C3: merging a single shard without RetroReco data
yields a final store holding exactly the truth and pulse-map tables. -/
theorem no_aux_data_no_aux_table_witness :
    pmName ≠ "RetroReco" ∧
    exShardA.lookup "truth" =
      some ⟨[("event_no", ColSpec.inferred), ("energy", ColSpec.inferred)], 1⟩ ∧
    exShardA.lookup pmName =
      some ⟨[("event_no", ColSpec.inferred), ("dom_x", ColSpec.inferred)], 3⟩ ∧
    (∀ sh ∈ [exShardA], sh.lookup "RetroReco" = none) ∧
    (mergeDatabases [exShardA] pmName).1 = .ok (some exFinalA) ∧
    ((exFinalA.lookup "truth").isSome ∧ (exFinalA.lookup pmName).isSome ∧
      exFinalA.lookup "RetroReco" = none ∧
      (∀ n, (exFinalA.lookup n).isSome → n = "truth" ∨ n = pmName)) :=
  ⟨by decide, by decide, by decide, by decide, by rfl,
    no_aux_data_no_aux_table exShardA [] pmName exFinalA
      ⟨[("event_no", ColSpec.inferred), ("energy", ColSpec.inferred)], 1⟩
      ⟨[("event_no", ColSpec.inferred), ("dom_x", ColSpec.inferred)], 3⟩
      (by decide) (by decide) (by decide) (by decide) (by rfl)⟩

theorem lookupSpec_map (columns : List String) (b : Bool) (x : String) :
    lookupSpec (columns.map (fun c => (c, columnSpec b c))) x =
      if x ∈ columns then some (columnSpec b x) else none := by
  induction columns with
  | nil => simp [lookupSpec]
  | cons c tl ih =>
      by_cases h : c = x
      · subst h
        simp [lookupSpec]
      · simp [lookupSpec, h, ih, Ne.symm h]

theorem colNames_create (columns : List String) (b : Bool) (k : Nat) :
    Table.colNames ⟨columns.map (fun c => (c, columnSpec b c)), k⟩ = columns := by
  induction columns with
  | nil => rfl
  | cons c tl ih =>
      unfold Table.colNames at ih ⊢
      simpa using ih

/-- Claim C7: in the final store's schema, `event_no` of the truth table is
an integer primary key, `event_no` of the pulse-map table is only NOT NULL
and no pulse-map column carries a primary key, and the `event_no` index
exists for the pulse-map table and for no other table. -/
theorem final_store_schema_constraints (s0 : Store) (rest : List Store)
    (pm : String) (sf : Store) (t0 p0 : Table)
    (ht : s0.lookup "truth" = some t0) (hp : s0.lookup pm = some p0)
    (het : "event_no" ∈ t0.colNames) (hep : "event_no" ∈ p0.colNames)
    (hok : (mergeDatabases (s0 :: rest) pm).1 = .ok (some sf)) :
    (∃ t, sf.lookup "truth" = some t ∧
      t.specOf "event_no" = some ColSpec.intPrimaryKeyNotNull) ∧
    (∃ p, sf.lookup pm = some p ∧
      p.specOf "event_no" = some ColSpec.notNull ∧
      (∀ c sp, p.specOf c = some sp → sp ≠ ColSpec.intPrimaryKeyNotNull)) ∧
    sf.indexes = [pm] := by
  obtain ⟨sInit, hce, hloop⟩ :=
    mergeDatabases_ok_elim s0 rest pm sf t0 p0 ht hp hok
  obtain ⟨e1, e2, e3, _, _, _⟩ := createEmptyTables_spec pm _ _ _ _ hce
  obtain ⟨q1, q2, _⟩ := mergeLoop_preserve pm (s0 :: rest) sInit sf 0 hloop
  refine ⟨?_, ?_, ?_⟩
  · obtain ⟨t2, h2, hcols⟩ := q2 "truth" _ e1
    refine ⟨t2, h2, ?_⟩
    unfold Table.specOf
    rw [hcols]
    show lookupSpec (t0.colNames.map (fun c => (c, columnSpec false c)))
      "event_no" = _
    rw [lookupSpec_map, if_pos het]
    simp [columnSpec]
  · obtain ⟨p2, h2, hcols⟩ := q2 pm _ e2
    refine ⟨p2, h2, ?_, ?_⟩
    · unfold Table.specOf
      rw [hcols]
      show lookupSpec (p0.colNames.map (fun c => (c, columnSpec true c)))
        "event_no" = _
      rw [lookupSpec_map, if_pos hep]
      simp [columnSpec]
    · intro c sp hsp
      unfold Table.specOf at hsp
      rw [hcols] at hsp
      have hsp2 : lookupSpec
          (p0.colNames.map (fun c => (c, columnSpec true c))) c = some sp := hsp
      rw [lookupSpec_map] at hsp2
      by_cases hc : c ∈ p0.colNames
      · rw [if_pos hc] at hsp2
        injection hsp2 with hsp3
        rw [← hsp3]
        unfold columnSpec
        by_cases hce2 : c = "event_no" <;> simp [hce2]
      · rw [if_neg hc] at hsp2
        exact absurd hsp2 (by simp)
  · rw [q1, e3]

/-- Witness for claim C7 on the concrete one-shard merge. -/
theorem final_store_schema_constraints_witness :
    exShardA.lookup "truth" =
      some ⟨[("event_no", ColSpec.inferred), ("energy", ColSpec.inferred)], 1⟩ ∧
    exShardA.lookup pmName =
      some ⟨[("event_no", ColSpec.inferred), ("dom_x", ColSpec.inferred)], 3⟩ ∧
    "event_no" ∈ Table.colNames
      ⟨[("event_no", ColSpec.inferred), ("energy", ColSpec.inferred)], 1⟩ ∧
    "event_no" ∈ Table.colNames
      ⟨[("event_no", ColSpec.inferred), ("dom_x", ColSpec.inferred)], 3⟩ ∧
    (mergeDatabases [exShardA] pmName).1 = .ok (some exFinalA) ∧
    ((∃ t, exFinalA.lookup "truth" = some t ∧
        t.specOf "event_no" = some ColSpec.intPrimaryKeyNotNull) ∧
      (∃ p, exFinalA.lookup pmName = some p ∧
        p.specOf "event_no" = some ColSpec.notNull ∧
        (∀ c sp, p.specOf c = some sp → sp ≠ ColSpec.intPrimaryKeyNotNull)) ∧
      exFinalA.indexes = [pmName]) :=
  ⟨by decide, by decide, by decide, by decide, by rfl,
    final_store_schema_constraints exShardA [] pmName exFinalA
      ⟨[("event_no", ColSpec.inferred), ("energy", ColSpec.inferred)], 1⟩
      ⟨[("event_no", ColSpec.inferred), ("dom_x", ColSpec.inferred)], 3⟩
      (by decide) (by decide) (by decide) (by decide) (by rfl)⟩

theorem extractRetroColumns_one (shards : List Store)
    (hall : ∀ sh ∈ shards, ∀ t, sh.lookup "RetroReco" = some t →
      t.cols.length = 1) :
    (extractRetroColumns shards).length ≤ 1 := by
  induction shards with
  | nil => simp [extractRetroColumns]
  | cons s rest ih =>
      unfold extractRetroColumns
      cases hl : s.lookup "RetroReco" with
      | none => exact ih (fun sh hs => hall sh (by simp [hs]))
      | some t =>
          dsimp only
          by_cases hc : t.colNames ≠ []
          · rw [if_pos hc]
            have h1 : t.cols.length = 1 := hall s (by simp) t hl
            unfold Table.colNames
            simp [h1]
          · rw [if_neg hc]
            exact ih (fun sh hs => hall sh (by simp [hs]))

theorem mergeLoop_retro_created (pm : String) : ∀ (shards : List Store)
    (store sf : Store) (i : Nat),
    (mergeLoopTrace store shards pm i).1 = .ok sf →
    ∀ sh ∈ shards, ∀ t, sh.lookup "RetroReco" = some t → 0 < t.nrows →
    (sf.lookup "RetroReco").isSome := by
  intro shards
  induction shards with
  | nil =>
      intro store sf i h sh hsh
      simp at hsh
  | cons s rest ih =>
      intro store sf i h sh hsh t htr hnz
      simp only [mergeLoopTrace] at h
      split at h
      · exact absurd h (by simp)
      · rename_i s1 hm
        dsimp only at h
        rcases List.mem_cons.mp hsh with rfl | hshr
        · have hms := hm
          unfold mergeOneShard at hms
          split at hms
          · exact absurd hms (by simp)
          · rename_i truth features retro he
            split at hms
            · exact absurd hms (by simp)
            · rename_i sA h1
              split at hms
              · exact absurd hms (by simp)
              · rename_i sB h2
                obtain ⟨_, _, hrd⟩ :=
                  extractEverything_elim sh pm truth features retro he
                rcases hrd with ⟨hnone, _⟩ | ⟨rs, hrs, hrdf⟩
                · rw [htr] at hnone
                  exact Option.noConfusion hnone
                · rw [htr] at hrs
                  injection hrs with hrs2
                  subst hrs2
                  have hnz2 : ¬retro.nrows = 0 := by
                    rw [hrdf]
                    show ¬t.nrows = 0
                    omega
                  unfold submitToDatabase at hms
                  rw [if_neg hnz2] at hms
                  obtain ⟨_, _, _, h4⟩ :=
                    toSqlAppend_preserve sB "RetroReco" retro s1 hms
                  obtain ⟨_, q2, _⟩ := mergeLoop_preserve pm rest s1 sf (i + 1) h
                  obtain ⟨tb, htb⟩ := Option.isSome_iff_exists.mp h4
                  obtain ⟨t2, h2b, _⟩ := q2 "RetroReco" tb htb
                  simp [h2b]
        · exact ih s1 sf (i + 1) h sh hshr t htr hnz

/-- Claim C10 (amended): `_create_empty_tables` creates the RetroReco table
explicitly only when the sampled retro column set has strictly more than one
column; but in a run where every shard's RetroReco table has exactly one
column and some shard holds retro rows, a successful merge still ends with a
RetroReco table in the final store, created implicitly (with an inferred
schema) by the first non-empty append. -/
theorem one_column_aux_table_still_created (s0 : Store) (rest : List Store)
    (pm : String) (sf : Store) (t0 p0 : Table) (sh : Store) (tj : Table)
    (hpm : pm ≠ "RetroReco")
    (ht : s0.lookup "truth" = some t0) (hp : s0.lookup pm = some p0)
    (hall : ∀ s2 ∈ s0 :: rest, ∀ t, s2.lookup "RetroReco" = some t →
      t.cols.length = 1)
    (hsh : sh ∈ s0 :: rest) (htj : sh.lookup "RetroReco" = some tj)
    (hnz : 0 < tj.nrows)
    (hok : (mergeDatabases (s0 :: rest) pm).1 = .ok (some sf)) :
    (extractRetroColumns (s0 :: rest)).length ≤ 1 ∧
    (∀ tc pc rc s, rc.length ≤ 1 → createEmptyTables pm tc pc rc = .ok s →
      s.lookup "RetroReco" = none) ∧
    (sf.lookup "RetroReco").isSome := by
  refine ⟨extractRetroColumns_one _ hall, ?_, ?_⟩
  · intro tc pc rc s hrc hce
    exact (createEmptyTables_spec pm tc pc rc s hce).2.2.2.1 hrc hpm
  · obtain ⟨sInit, hce, hloop⟩ :=
      mergeDatabases_ok_elim s0 rest pm sf t0 p0 ht hp hok
    exact mergeLoop_retro_created pm (s0 :: rest) sInit sf 0 hloop sh hsh
      tj htj hnz

/-- Counterexample for claim C10 as stated: a run whose only shard has a
one-column RetroReco table with one row of auxiliary data. The sampled retro
column set has length one, so `_create_empty_tables` skips the table — yet
the final store of the merge does contain a RetroReco table, because the
append step creates it implicitly. -/
theorem one_column_aux_table_omitted_is_false :
    exShardRetro1.lookup "RetroReco" =
      some ⟨[("osc_weight", ColSpec.inferred)], 1⟩ ∧
    (extractRetroColumns [exShardRetro1]).length = 1 ∧
    finalHasTable (mergeDatabases [exShardRetro1] pmName).1 "RetroReco" = true :=
  ⟨by decide, by decide, by rfl⟩

/-- Witness for claim C10's amended theorem on the concrete one-shard run. -/
theorem one_column_aux_table_still_created_witness :
    pmName ≠ "RetroReco" ∧
    exShardRetro1.lookup "truth" =
      some ⟨[("event_no", ColSpec.inferred)], 1⟩ ∧
    exShardRetro1.lookup pmName =
      some ⟨[("event_no", ColSpec.inferred)], 1⟩ ∧
    exShardRetro1.lookup "RetroReco" =
      some ⟨[("osc_weight", ColSpec.inferred)], 1⟩ ∧
    0 < (1 : Nat) ∧
    (mergeDatabases [exShardRetro1] pmName).1 = .ok (some exFinalRetro1) ∧
    ((extractRetroColumns [exShardRetro1]).length ≤ 1 ∧
      (∀ tc pc rc s, rc.length ≤ 1 →
        createEmptyTables pmName tc pc rc = .ok s →
        s.lookup "RetroReco" = none) ∧
      (exFinalRetro1.lookup "RetroReco").isSome) :=
  ⟨by decide, by decide, by decide, by decide, by decide, by rfl,
    one_column_aux_table_still_created exShardRetro1 [] pmName exFinalRetro1
      ⟨[("event_no", ColSpec.inferred)], 1⟩
      ⟨[("event_no", ColSpec.inferred)], 1⟩
      exShardRetro1
      ⟨[("osc_weight", ColSpec.inferred)], 1⟩
      (by decide) (by decide) (by decide)
      (by
        intro s2 hs2 t htl
        have hs2e : s2 = exShardRetro1 := by simpa using hs2
        subst hs2e
        have htl2 : some (⟨[("osc_weight", ColSpec.inferred)], 1⟩ : Table) =
            some t := by
          rw [← htl]
          rfl
        injection htl2 with h2
        rw [← h2]
        rfl)
      (by decide) (by decide) (by decide) (by rfl)⟩

theorem toSqlAppend_ok_cols (s : Store) (name : String) (df : DataFrame)
    (s2 : Store) (t : Table) (hl : s.lookup name = some t)
    (h : toSqlAppend s name df = .ok s2) :
    ∀ c ∈ df.cols, c ∈ t.colNames := by
  unfold toSqlAppend at h
  rw [hl] at h
  dsimp only at h
  split at h
  · rename_i hall
    intro c hc
    have h2 := List.all_eq_true.mp hall c hc
    simpa using h2
  · exact absurd h (by simp)

theorem submit_ok_cols (s : Store) (key : String) (df : DataFrame)
    (s2 : Store) (t : Table) (hl : s.lookup key = some t) (hnz : 0 < df.nrows)
    (h : submitToDatabase s key df = .ok s2) :
    ∀ c ∈ df.cols, c ∈ t.colNames := by
  unfold submitToDatabase at h
  rw [if_neg (by omega)] at h
  exact toSqlAppend_ok_cols s key df s2 t hl h

/-- Through a successful merge loop, every shard's non-empty truth and
pulse-map frames passed the insert's column check against the final tables'
column sets. -/
theorem mergeLoop_ok_cols (pm : String) : ∀ (shards : List Store)
    (store sf : Store) (i : Nat),
    (mergeLoopTrace store shards pm i).1 = .ok sf →
    ∀ tt pt, store.lookup "truth" = some tt → store.lookup pm = some pt →
    ∀ sh ∈ shards,
      (∀ ts, sh.lookup "truth" = some ts → 0 < ts.nrows →
        ∀ c ∈ ts.colNames, c ∈ tt.colNames) ∧
      (∀ ps, sh.lookup pm = some ps → 0 < ps.nrows →
        ∀ c ∈ ps.colNames, c ∈ pt.colNames) := by
  intro shards
  induction shards with
  | nil =>
      intro store sf i h tt pt htt hpt sh hsh
      simp at hsh
  | cons s rest ih =>
      intro store sf i h tt pt htt hpt sh hsh
      simp only [mergeLoopTrace] at h
      split at h
      · exact absurd h (by simp)
      · rename_i s1 hm
        dsimp only at h
        have hms := hm
        unfold mergeOneShard at hms
        split at hms
        · exact absurd hms (by simp)
        · rename_i truth features retro he
          split at hms
          · exact absurd hms (by simp)
          · rename_i sA h1
            split at hms
            · exact absurd hms (by simp)
            · rename_i sB h2
              obtain ⟨htd, hpd, _⟩ :=
                extractEverything_elim s pm truth features retro he
              obtain ⟨ts0, hts0, htdf⟩ := htd
              obtain ⟨ps0, hps0, hpdf⟩ := hpd
              obtain ⟨_, pA, _⟩ := submit_preserve store "truth" truth sA h1
              rcases List.mem_cons.mp hsh with rfl | hshr
              · constructor
                · intro ts hts hnz c hc
                  rw [hts0] at hts
                  injection hts with hts2
                  subst hts2
                  have hr : 0 < truth.nrows := by
                    rw [htdf]
                    show 0 < ts0.nrows
                    exact hnz
                  have hcols := submit_ok_cols store "truth" truth sA tt htt hr h1
                  apply hcols
                  rw [htdf]
                  exact hc
                · intro ps hps hnz c hc
                  rw [hps0] at hps
                  injection hps with hps2
                  subst hps2
                  have hr : 0 < features.nrows := by
                    rw [hpdf]
                    show 0 < ps0.nrows
                    exact hnz
                  obtain ⟨pt1, hpt1, hpt1c⟩ := pA pm pt hpt
                  have hcols := submit_ok_cols sA pm features sB pt1 hpt1 hr h2
                  have hnames : pt1.colNames = pt.colNames := by
                    unfold Table.colNames
                    rw [hpt1c]
                  rw [← hnames]
                  apply hcols
                  rw [hpdf]
                  exact hc
              · obtain ⟨_, q2, _⟩ := mergeOneShard_preserve store s pm s1 hm
                obtain ⟨tt1, htt1, htt1c⟩ := q2 "truth" tt htt
                obtain ⟨pt1, hpt1, hpt1c⟩ := q2 pm pt hpt
                have hrec := ih s1 sf (i + 1) h tt1 pt1 htt1 hpt1 sh hshr
                have hnt : tt1.colNames = tt.colNames := by
                  unfold Table.colNames
                  rw [htt1c]
                have hnp : pt1.colNames = pt.colNames := by
                  unfold Table.colNames
                  rw [hpt1c]
                constructor
                · intro ts hts hnz c hc
                  have := hrec.1 ts hts hnz c hc
                  rw [← hnt]
                  exact this
                · intro ps hps hnz c hc
                  have := hrec.2 ps hps hnz c hc
                  rw [← hnp]
                  exact this

/-- Claim C1 (amended): if any shard holds, for the truth or pulse-map
table, a non-empty table with a column that is NOT in the column set sampled
from the first shard (in particular a strict superset of columns), the merge
raises an error — the insert against the final table fails — rather than
adopting that shard's schema. (A shard whose column set is a strict SUBSET
of the sampled set is instead appended silently with its missing columns
null-filled: see the counterexample.) -/
theorem shard_unknown_column_errors (s0 : Store) (rest : List Store)
    (pm : String) (t0 p0 : Table)
    (ht : s0.lookup "truth" = some t0) (hp : s0.lookup pm = some p0)
    (hbad : ∃ sh ∈ s0 :: rest,
      (∃ ts, sh.lookup "truth" = some ts ∧ 0 < ts.nrows ∧
        ∃ c ∈ ts.colNames, c ∉ t0.colNames) ∨
      (∃ ps, sh.lookup pm = some ps ∧ 0 < ps.nrows ∧
        ∃ c ∈ ps.colNames, c ∉ p0.colNames)) :
    ∃ e, (mergeDatabases (s0 :: rest) pm).1 = .error e := by
  cases hres : (mergeDatabases (s0 :: rest) pm).1 with
  | error e => exact ⟨e, rfl⟩
  | ok osf =>
      exfalso
      cases osf with
      | none =>
          unfold mergeDatabases at hres
          dsimp only at hres
          rw [extractColumnNames_ok s0 rest pm t0 p0 ht hp] at hres
          dsimp only at hres
          split at hres
          · simp at hres
          · split at hres
            · simp at hres
            · dsimp only at hres
              injection hres with h2
              exact Option.noConfusion h2
      | some sf =>
          obtain ⟨sInit, hce, hloop⟩ :=
            mergeDatabases_ok_elim s0 rest pm sf t0 p0 ht hp hres
          obtain ⟨e1, e2, _, _, _, _⟩ := createEmptyTables_spec pm _ _ _ _ hce
          obtain ⟨sh, hsh, hcase⟩ := hbad
          have hcols := mergeLoop_ok_cols pm (s0 :: rest) sInit sf 0 hloop
            _ _ e1 e2 sh hsh
          rcases hcase with ⟨ts, hts, hnz, c, hc, hcn⟩ |
            ⟨ps, hps, hnz, c, hc, hcn⟩
          · have hmem := hcols.1 ts hts hnz c hc
            rw [colNames_create] at hmem
            exact hcn hmem
          · have hmem := hcols.2 ps hps hnz c hc
            rw [colNames_create] at hmem
            exact hcn hmem

/-- Counterexample for claim C1 as stated: the second shard's truth column
set `[event_no]` differs from the sampled set `[event_no, energy]` (a strict
subset), yet the merge succeeds and appends that shard's row — two truth
rows land in the final store, the missing column silently null-filled —
instead of surfacing a schema-mismatch error. -/
theorem differing_subset_schema_not_an_error :
    mergeSucceeds [exShardA, exShardSubset] pmName = true ∧
    (exShardSubset.lookup "truth").map Table.colNames = some ["event_no"] ∧
    (exShardA.lookup "truth").map Table.colNames =
      some ["event_no", "energy"] ∧
    finalTableRows (mergeDatabases [exShardA, exShardSubset] pmName).1
      "truth" = 2 :=
  ⟨by rfl, by rfl, by rfl, by rfl⟩

/-- Witness for claim C1's amended theorem: a second shard with a truth
column `zenith` unknown to the sampled schema makes the merge raise. -/
theorem shard_unknown_column_errors_witness :
    exShardA.lookup "truth" =
      some ⟨[("event_no", ColSpec.inferred), ("energy", ColSpec.inferred)], 1⟩ ∧
    exShardA.lookup pmName =
      some ⟨[("event_no", ColSpec.inferred), ("dom_x", ColSpec.inferred)], 3⟩ ∧
    exShardSuper ∈ [exShardA, exShardSuper] ∧
    (∃ e, (mergeDatabases [exShardA, exShardSuper] pmName).1 = .error e) :=
  ⟨by decide, by decide, by decide,
    shard_unknown_column_errors exShardA [exShardSuper] pmName
      ⟨[("event_no", ColSpec.inferred), ("energy", ColSpec.inferred)], 1⟩
      ⟨[("event_no", ColSpec.inferred), ("dom_x", ColSpec.inferred)], 3⟩
      (by decide) (by decide)
      ⟨exShardSuper, by decide,
        Or.inl ⟨⟨[("event_no", ColSpec.inferred), ("energy", ColSpec.inferred),
            ("zenith", ColSpec.inferred)], 1⟩, by decide, by decide,
          "zenith", by decide, by decide⟩⟩⟩

theorem mergeLoopTrace_no_delete (pm : String) : ∀ (shards : List Store)
    (store : Store) (i : Nat),
    MergeEvent.deletedShards ∉ (mergeLoopTrace store shards pm i).2 := by
  intro shards
  induction shards with
  | nil =>
      intro store i
      simp [mergeLoopTrace]
  | cons s rest ih =>
      intro store i
      simp only [mergeLoopTrace]
      cases hm : mergeOneShard store s pm with
      | error e => simp
      | ok s1 =>
          dsimp only
          intro hmem
          rcases List.mem_cons.mp hmem with h3 | h3
          · exact MergeEvent.noConfusion h3
          · exact ih s1 (i + 1) h3

theorem mergeLoopTrace_ok_appended (pm : String) : ∀ (shards : List Store)
    (store sf : Store) (i : Nat),
    (mergeLoopTrace store shards pm i).1 = .ok sf →
    ∀ j, j < shards.length →
      MergeEvent.appendedShard (i + j) ∈ (mergeLoopTrace store shards pm i).2 := by
  intro shards
  induction shards with
  | nil =>
      intro store sf i h j hj
      simp at hj
  | cons s rest ih =>
      intro store sf i h j hj
      simp only [mergeLoopTrace] at h ⊢
      cases hm : mergeOneShard store s pm with
      | error e =>
          rw [hm] at h
          simp at h
      | ok s1 =>
          rw [hm] at h
          dsimp only at h ⊢
          cases j with
          | zero => simp
          | succ j2 =>
              have hj2 : j2 < rest.length := by simpa using hj
              have hmem := ih s1 sf (i + 1) h j2 hj2
              have harith : i + (j2 + 1) = (i + 1) + j2 := by omega
              rw [harith]
              exact List.mem_cons_of_mem _ hmem

/-- Claim C6: if the shard-deletion event appears among the first `k` steps
of the merge's side-effect trace (any crash cut), then every shard's append
already appears among those steps; the deletion event occurs exactly once
over the whole trace, and it is its very last event — shards are deleted
only once, after the entire merge, never incrementally. -/
theorem shard_deletion_only_after_full_merge (shards : List Store)
    (pm : String) (k : Nat)
    (h : MergeEvent.deletedShards ∈ ((mergeDatabases shards pm).2).take k) :
    (∀ i, i < shards.length →
      MergeEvent.appendedShard i ∈ ((mergeDatabases shards pm).2).take k) ∧
    ((mergeDatabases shards pm).2).count MergeEvent.deletedShards = 1 ∧
    ((mergeDatabases shards pm).2).getLast? = some MergeEvent.deletedShards := by
  cases shards with
  | nil =>
      exfalso
      revert h
      simp [mergeDatabases]
  | cons s0 rest =>
      unfold mergeDatabases at h ⊢
      dsimp only at h ⊢
      cases hec : extractColumnNames (s0 :: rest) pm with
      | error e =>
          rw [hec] at h
          simp at h
      | ok trip =>
          obtain ⟨tc, pc, rc⟩ := trip
          rw [hec] at h
          dsimp only at h ⊢
          cases hce : createEmptyTables pm tc pc rc with
          | error e =>
              rw [hce] at h
              simp at h
          | ok sInit =>
              rw [hce] at h
              dsimp only at h ⊢
              cases hres : (mergeLoopTrace sInit (s0 :: rest) pm 0).1 with
              | error e =>
                  rw [hres] at h
                  dsimp only at h
                  exfalso
                  have h2 := List.mem_of_mem_take h
                  rcases List.mem_cons.mp h2 with h3 | h3
                  · exact MergeEvent.noConfusion h3
                  · exact mergeLoopTrace_no_delete pm (s0 :: rest) sInit 0 h3
              | ok sFinal =>
                  rw [hres] at h
                  dsimp only at h ⊢
                  have hnd : MergeEvent.deletedShards ∉
                      MergeEvent.createdTables ::
                        (mergeLoopTrace sInit (s0 :: rest) pm 0).2 := by
                    intro hmem
                    rcases List.mem_cons.mp hmem with h3 | h3
                    · exact MergeEvent.noConfusion h3
                    · exact mergeLoopTrace_no_delete pm (s0 :: rest) sInit 0 h3
                  have hshape : MergeEvent.createdTables ::
                      (mergeLoopTrace sInit (s0 :: rest) pm 0).2 ++
                        [MergeEvent.deletedShards] =
                      (MergeEvent.createdTables ::
                        (mergeLoopTrace sInit (s0 :: rest) pm 0).2) ++
                        [MergeEvent.deletedShards] := by
                    simp
                  have hklen : (MergeEvent.createdTables ::
                      (mergeLoopTrace sInit (s0 :: rest) pm 0).2).length < k := by
                    by_contra hk
                    push_neg at hk
                    rw [hshape, List.take_append_of_le_length hk] at h
                    exact hnd (List.mem_of_mem_take h)
                  have htake : (MergeEvent.createdTables ::
                      (mergeLoopTrace sInit (s0 :: rest) pm 0).2 ++
                        [MergeEvent.deletedShards]).take k =
                      MergeEvent.createdTables ::
                      (mergeLoopTrace sInit (s0 :: rest) pm 0).2 ++
                        [MergeEvent.deletedShards] := by
                    apply List.take_of_length_le
                    simp only [hshape, List.length_append, List.length_cons,
                      List.length_singleton]
                    simp at hklen ⊢
                    omega
                  refine ⟨?_, ?_, ?_⟩
                  · intro i hi
                    rw [htake]
                    have hmem := mergeLoopTrace_ok_appended pm (s0 :: rest)
                      sInit sFinal 0 hres i (by simpa using hi)
                    rw [Nat.zero_add] at hmem
                    rw [hshape]
                    exact List.mem_append_left _ (List.mem_cons_of_mem _ hmem)
                  · rw [hshape, List.count_append]
                    rw [List.count_eq_zero.mpr hnd]
                    simp
                  · exact List.getLast?_concat _

/-- Witness for claim C6 on the concrete one-shard merge, whose trace is
`[createdTables, appendedShard 0, deletedShards]`. -/
theorem shard_deletion_only_after_full_merge_witness :
    MergeEvent.deletedShards ∈ ((mergeDatabases [exShardA] pmName).2).take 3 ∧
    ((∀ i, i < [exShardA].length →
      MergeEvent.appendedShard i ∈
        ((mergeDatabases [exShardA] pmName).2).take 3) ∧
    ((mergeDatabases [exShardA] pmName).2).count MergeEvent.deletedShards = 1 ∧
    ((mergeDatabases [exShardA] pmName).2).getLast? =
      some MergeEvent.deletedShards) :=
  ⟨by decide, shard_deletion_only_after_full_merge [exShardA] pmName 3
    (by decide)⟩

/-- Claim C9: `save_to_sql` writes the truth and pulse-map buffers to the
fresh shard file unconditionally — non-empty truth and feature buffers
always produce the corresponding table — while the RetroReco buffer is
written only when it holds rows, so an empty aux buffer leaves the shard
without any RetroReco table. -/
theorem save_to_sql_tables (featureBig truthBig retroBig : DataFrame)
    (pm : String)
    (htc : truthBig.cols ≠ []) (htr : 0 < truthBig.nrows)
    (hfc : featureBig.cols ≠ []) (hfr : 0 < featureBig.nrows)
    (hrc : 0 < retroBig.nrows → retroBig.cols ≠ [])
    (hpm1 : pm ≠ "truth") (hpm2 : pm ≠ "RetroReco") :
    ∃ s, saveToSql featureBig truthBig retroBig pm = .ok s ∧
      (s.lookup "truth").isSome ∧ (s.lookup pm).isSome ∧
      ((s.lookup "RetroReco").isSome ↔ 0 < retroBig.nrows) := by
  have h1 : toSqlAppend Store.empty "truth" truthBig =
      .ok ⟨[("truth",
        ⟨truthBig.cols.map (fun c => (c, ColSpec.inferred)),
          truthBig.nrows⟩)], []⟩ := by
    unfold toSqlAppend Store.lookup Store.empty
    simp [lookupTable, htc]
  by_cases hr : 0 < retroBig.nrows
  · have h2 : toSqlAppend
        ⟨[("truth",
          ⟨truthBig.cols.map (fun c => (c, ColSpec.inferred)),
            truthBig.nrows⟩)], []⟩ "RetroReco" retroBig =
        .ok ⟨[("truth",
          ⟨truthBig.cols.map (fun c => (c, ColSpec.inferred)),
            truthBig.nrows⟩),
          ("RetroReco",
          ⟨retroBig.cols.map (fun c => (c, ColSpec.inferred)),
            retroBig.nrows⟩)], []⟩ := by
      unfold toSqlAppend Store.lookup
      simp [lookupTable, hrc hr]
    have h3 : toSqlAppend
        ⟨[("truth",
          ⟨truthBig.cols.map (fun c => (c, ColSpec.inferred)),
            truthBig.nrows⟩),
          ("RetroReco",
          ⟨retroBig.cols.map (fun c => (c, ColSpec.inferred)),
            retroBig.nrows⟩)], []⟩ pm featureBig =
        .ok ⟨[("truth",
          ⟨truthBig.cols.map (fun c => (c, ColSpec.inferred)),
            truthBig.nrows⟩),
          ("RetroReco",
          ⟨retroBig.cols.map (fun c => (c, ColSpec.inferred)),
            retroBig.nrows⟩),
          (pm,
          ⟨featureBig.cols.map (fun c => (c, ColSpec.inferred)),
            featureBig.nrows⟩)], []⟩ := by
      unfold toSqlAppend Store.lookup
      simp [lookupTable, hfc, Ne.symm hpm1, Ne.symm hpm2]
    refine ⟨⟨[("truth",
        ⟨truthBig.cols.map (fun c => (c, ColSpec.inferred)), truthBig.nrows⟩),
        ("RetroReco",
        ⟨retroBig.cols.map (fun c => (c, ColSpec.inferred)), retroBig.nrows⟩),
        (pm,
        ⟨featureBig.cols.map (fun c => (c, ColSpec.inferred)),
          featureBig.nrows⟩)], []⟩, ?_, ?_, ?_, ?_⟩
    · unfold saveToSql
      rw [h1]
      dsimp only
      rw [if_pos hr, h2]
      dsimp only
      exact h3
    · simp [Store.lookup, lookupTable]
    · simp [Store.lookup, lookupTable, Ne.symm hpm1, Ne.symm hpm2]
    · simp [Store.lookup, lookupTable, hr]
  · have h3 : toSqlAppend
        ⟨[("truth",
          ⟨truthBig.cols.map (fun c => (c, ColSpec.inferred)),
            truthBig.nrows⟩)], []⟩ pm featureBig =
        .ok ⟨[("truth",
          ⟨truthBig.cols.map (fun c => (c, ColSpec.inferred)),
            truthBig.nrows⟩),
          (pm,
          ⟨featureBig.cols.map (fun c => (c, ColSpec.inferred)),
            featureBig.nrows⟩)], []⟩ := by
      unfold toSqlAppend Store.lookup
      simp [lookupTable, hfc, Ne.symm hpm1]
    refine ⟨⟨[("truth",
        ⟨truthBig.cols.map (fun c => (c, ColSpec.inferred)), truthBig.nrows⟩),
        (pm,
        ⟨featureBig.cols.map (fun c => (c, ColSpec.inferred)),
          featureBig.nrows⟩)], []⟩, ?_, ?_, ?_, ?_⟩
    · unfold saveToSql
      rw [h1]
      dsimp only
      rw [if_neg hr]
      dsimp only
      exact h3
    · simp [Store.lookup, lookupTable]
    · simp [Store.lookup, lookupTable, Ne.symm hpm1, Ne.symm hpm2]
    · simp [Store.lookup, lookupTable, hpm2, Ne.symm hpm2, hr]

/-- Witness for claim C9 with concrete buffers: two truth rows, three
feature rows, an empty retro buffer. -/
theorem save_to_sql_tables_witness :
    (DataFrame.mk ["event_no", "energy"] 2).cols ≠ [] ∧
    0 < (DataFrame.mk ["event_no", "energy"] 2).nrows ∧
    (DataFrame.mk ["event_no", "dom_x"] 3).cols ≠ [] ∧
    0 < (DataFrame.mk ["event_no", "dom_x"] 3).nrows ∧
    (0 < (DataFrame.mk [] 0).nrows → (DataFrame.mk [] 0).cols ≠ []) ∧
    pmName ≠ "truth" ∧ pmName ≠ "RetroReco" ∧
    (∃ s, saveToSql (DataFrame.mk ["event_no", "dom_x"] 3)
        (DataFrame.mk ["event_no", "energy"] 2)
        (DataFrame.mk [] 0) pmName = .ok s ∧
      (s.lookup "truth").isSome ∧ (s.lookup pmName).isSome ∧
      ((s.lookup "RetroReco").isSome ↔ 0 < (DataFrame.mk [] 0).nrows)) :=
  ⟨by decide, by decide, by decide, by decide, by decide, by decide, by decide,
    save_to_sql_tables (DataFrame.mk ["event_no", "dom_x"] 3)
      (DataFrame.mk ["event_no", "energy"] 2) (DataFrame.mk [] 0) pmName
      (by decide) (by decide) (by decide) (by decide) (by decide)
      (by decide) (by decide)⟩

end SQLiteDataConverter
